import Mathlib

/-!
# Verification of `ncache.py`

A shallow embedding of the ncache in-memory key-value store
(`src/ncache.py`) and proofs about its cache operations, eviction
routines, command parser and memory-management loop.

Modelling conventions:
* Python `datetime` values are modelled as `Int` seconds; `datetime.now()`
  is passed explicitly as a `now : Int` parameter.
* The two module-level dicts `cache_timeouts` / `cache_values` are modelled
  as insertion-ordered association lists inside a `CacheState` record;
  dict mutation becomes explicit state passing.
* Python exceptions are modelled with `Except PyError`; `run_ncache`
  catches exactly `ValueError`, so `PyError` records which constructors
  are ValueErrors.
* The Python expression `expiry < future`, where `expiry` is a `datetime`
  and `future` may be a `datetime` or an `int`, raises `TypeError` when
  `future` is an `int`; `PyTimeArg` and `dtLtArg` model this.
-/

namespace NCache

/-- A timeout descriptor: the tuples `('ttl', expires_at)` /
`('perm', created_at)` stored in `cache_timeouts`. -/
inductive Timeout where
  | ttl (expires_at : Int)
  | perm (created_at : Int)
  deriving DecidableEq, Repr

/-- Association-list lookup, modelling `dict.get(key, None)`:
first binding wins. -/
def alookup (k : String) : List (String × α) → Option α
  | [] => none
  | p :: l => if p.1 = k then some p.2 else alookup k l

/-- Association-list removal, modelling `dict.pop(key, None)`'s effect on
the mapping (every binding of `k` goes; on a genuine dict there is at most
one). -/
def aremove (k : String) : List (String × α) → List (String × α)
  | [] => []
  | p :: l => if p.1 = k then aremove k l else p :: aremove k l

/-- Association-list update, modelling `d[key] = v`: replace the binding
in place if present, else append. -/
def aset (k : String) (v : α) : List (String × α) → List (String × α)
  | [] => [(k, v)]
  | p :: l => if p.1 = k then (k, v) :: l else p :: aset k v l

/-- The two module-level dicts of `ncache.py`. -/
structure CacheState where
  timeouts : List (String × Timeout)
  values : List (String × String)
  deriving DecidableEq, Repr

/-- The empty pair of stores (module state at import time). -/
def emptyCache : CacheState := ⟨[], []⟩

/-- `_get_or_timeout(key)`: returns the value for `key`, or `'NOT FOUND'`
after purging `key` from both dicts. Faithful translation of
`ncache._get_or_timeout`. -/
def get_or_timeout (now : Int) (key : String) (s : CacheState) :
    String × CacheState :=
  let expiry := alookup key s.timeouts
  let value : Option String :=
    match expiry with
    | some (.ttl e) => if e > now then alookup key s.values else none
    | some (.perm _) => alookup key s.values
    | none => none
  match value with
  | some v => (v, s)
  | none =>
      ("NOT FOUND",
       ⟨aremove key s.timeouts, aremove key s.values⟩)

/-- `_set_key(key, value, ttl=None)`: writes the timeout descriptor and
the value. Faithful translation of `ncache._set_key`. -/
def set_key (now : Int) (key value : String) (ttl : Option Int)
    (s : CacheState) : CacheState :=
  let timeouts :=
    match ttl with
    | some t => aset key (.ttl (now + t)) s.timeouts
    | none => aset key (.perm now) s.timeouts
  ⟨timeouts, aset key value s.values⟩

/-- The comparison key of `sorted(keys, key=lambda x: x[1])`: compare
`(key, timestamp)` pairs by their timestamp. -/
def byTime (a b : String × Int) : Prop := a.2 ≤ b.2

instance : DecidableRel byTime := fun a b => Int.decLe a.2 b.2

instance : IsTotal (String × Int) byTime := ⟨fun a b => Int.le_total a.2 b.2⟩

instance : IsTrans (String × Int) byTime :=
  ⟨fun _ _ _ h1 h2 => le_trans h1 h2⟩

/-- `sorted(keys, key=lambda x: x[1], reverse=False)`: a stable sort
ascending by timestamp, modelled with insertion sort (stable, like
Python's sort). -/
def sortByTime (l : List (String × Int)) : List (String × Int) :=
  List.insertionSort byTime l

/-- The `perm` entries of the timeout dict, as `(key, created_at)` pairs,
in dict order: the comprehension
`[(key, val[1]) for key, val in cache_timeouts.items() if val[0] == 'perm']`. -/
def permEntries : List (String × Timeout) → List (String × Int)
  | [] => []
  | (k, .perm t) :: l => (k, t) :: permEntries l
  | (_, .ttl _) :: l => permEntries l

/-- The `ttl` entries of the timeout dict, as `(key, expires_at)` pairs,
in dict order. -/
def ttlEntries : List (String × Timeout) → List (String × Int)
  | [] => []
  | (k, .ttl e) :: l => (k, e) :: ttlEntries l
  | (_, .perm _) :: l => ttlEntries l

/-- Remove a list of keys from both dicts (the `for key, _ in keys:` pop
loop of `_clear_perm_keys`). -/
def removeKeys : List String → CacheState → CacheState
  | [], s => s
  | k :: ks, s => removeKeys ks ⟨aremove k s.timeouts, aremove k s.values⟩

/-- `_clear_perm_keys(chunk_size)`: select the perm entries, sort ascending
by creation time, take the first `chunk_size`, pop each from both dicts.
Faithful translation of `ncache._clear_perm_keys`. -/
def clear_perm_keys (chunk_size : Nat) (s : CacheState) : CacheState :=
  let keys := permEntries s.timeouts
  let keys := sortByTime keys
  let keys := keys.take chunk_size
  removeKeys (keys.map Prod.fst) s

/-- Python exceptions that the embedded code can raise. -/
inductive PyError where
  | wrongArgCount (verb : String) (received : Nat)
  | unknownCommand
  | indexError
  | typeError
  deriving DecidableEq, Repr

/-- Whether an exception is a `ValueError` — the only class
`run_ncache`'s `except ValueError` handler catches. -/
def PyError.isValueError : PyError → Bool
  | .wrongArgCount _ _ => true
  | .unknownCommand => true
  | .indexError => false
  | .typeError => false

/-- The `str(e)` text of the ValueErrors raised by `parse_command`. -/
def PyError.message : PyError → String
  | .wrongArgCount verb n =>
      "ERROR: Wrong number of args for " ++ verb ++ ". Received " ++
        toString n ++ ", expected 2"
  | .unknownCommand => "ERROR: Unkown command. Not GET or SET"
  | .indexError => "string index out of range"
  | .typeError => "cannot compare datetime to int"

/-- The argument `_clear_ttl_keys` receives for `future`: a `datetime` when
called as documented (and as the tests call it), but `manage_memory`
passes the plain `int` `this_step`. -/
inductive PyTimeArg where
  | dt (t : Int)
  | int (n : Int)
  deriving DecidableEq, Repr

/-- The Python comparison `expiry < future` where `expiry` is a
`datetime`: defined against another `datetime`, raises `TypeError`
against an `int`. -/
def dtLtArg (expiry : Int) : PyTimeArg → Except PyError Bool
  | .dt t => .ok (expiry < t)
  | .int _ => .error .typeError

/-- The pop loop of `_clear_ttl_keys`, over the snapshot of ttl entries:
each comparison may raise, and pops performed before a raise stand. -/
def clearTtlLoop (future : PyTimeArg) :
    List (String × Int) → CacheState → Except PyError CacheState
  | [], s => .ok s
  | (k, e) :: ks, s =>
      match dtLtArg e future with
      | .error err => .error err
      | .ok b =>
          if b then
            clearTtlLoop future ks ⟨aremove k s.timeouts, aremove k s.values⟩
          else clearTtlLoop future ks s

/-- `_clear_ttl_keys(future)`: snapshot the ttl entries, pop from both
dicts every one expiring strictly before `future`. Faithful translation of
`ncache._clear_ttl_keys`. -/
def clear_ttl_keys (future : PyTimeArg) (s : CacheState) :
    Except PyError CacheState :=
  clearTtlLoop future (ttlEntries s.timeouts) s

/-! ## Command parsing -/

/-- Python `s.lstrip(' ').rstrip(' ')`: drop space characters (only) from
both ends. -/
def pyStripSpaces (s : List Char) : List Char :=
  ((s.dropWhile (· == ' ')).reverse.dropWhile (· == ' ')).reverse

/-- Python `s.split(' ')` with an explicit separator: split at every
single space, keeping empty pieces; the result is never empty. -/
def splitSpaces : List Char → List (List Char)
  | [] => [[]]
  | c :: cs =>
      if c = ' ' then [] :: splitSpaces cs
      else
        match splitSpaces cs with
        | r :: rs => (c :: r) :: rs
        | [] => [[c]]

/-- The token list `command.lstrip(' ').rstrip(' ').split(' ')`. -/
def pyTokens (s : String) : List String :=
  (splitSpaces (pyStripSpaces s.toList)).map String.mk

/-- Python `s.lower()` (ASCII case folding — the verbs and TTL prefixes
compared here are ASCII). -/
def pyLower (s : String) : String :=
  String.mk (s.toList.map Char.toLower)

/-- Character-list version of `s.startswith(p)`. -/
def charsStartWith : List Char → List Char → Bool
  | _, [] => true
  | [], _ :: _ => false
  | c :: cs, d :: ds => (c = d) && charsStartWith cs ds

/-- Python `s.startswith(p)`. -/
def pyStartsWith (s p : String) : Bool :=
  charsStartWith s.toList p.toList

/-- Python `int(s)` on a string of decimal digits. -/
def pyInt (s : String) : Nat :=
  s.toList.foldl (fun acc c => acc * 10 + (c.toNat - 48)) 0

/-- Python `s.isdigit()`: true iff nonempty and all characters are
digits. -/
def pyIsDigit (s : String) : Bool :=
  s.length > 0 && s.toList.all Char.isDigit

/-- Python `' '.join(pieces)`. -/
def joinSpaces : List String → String
  | [] => ""
  | [x] => x
  | x :: xs => x ++ " " ++ joinSpaces xs

/-- `parse_command(command)`: tokenize; dispatch on the (case-folded)
verb; `GET` with exactly two tokens reads the key; `SET` with more than
two tokens strips an optional trailing `TTL=<digits>` token, rejoins the
middle tokens into the raw value, positionally strips one enclosing
double-quote pair, and writes the key. Faithful translation of
`ncache.parse_command`; the `command[2][0]` subscript on an empty raw
value is the `IndexError` branch. -/
def parse_command (now : Int) (command : String) (s : CacheState) :
    Except PyError (String × CacheState) :=
  let toks := pyTokens command
  if pyLower (toks.getD 0 "") = "get" then
    if toks.length = 2 then .ok (get_or_timeout now (toks.getD 1 "") s)
    else .error (.wrongArgCount "GET" toks.length)
  else if pyLower (toks.getD 0 "") = "set" then
    if toks.length > 2 then
      let ttlTok := pyLower (toks.getLast?.getD "")
      let hasTtl := pyStartsWith ttlTok "ttl=" && pyIsDigit (ttlTok.drop 4)
      let rawValue :=
        if hasTtl then joinSpaces (toks.drop 2).dropLast
        else joinSpaces (toks.drop 2)
      let ttl : Option Int :=
        if hasTtl then some ((pyInt (ttlTok.drop 4) : Nat) : Int)
        else none
      match rawValue.toList with
      | [] => .error .indexError
      | c :: cs =>
          let value :=
            if c = '"' ∧ (c :: cs).getLastD ' ' = '"' then
              String.mk ((c :: cs).drop 1).dropLast
            else rawValue
          .ok ("SUCCESS", set_key now (toks.getD 1 "") value ttl s)
    else .error (.wrongArgCount "SET" toks.length)
  else .error .unknownCommand

/-! ## Memory management -/

/-- `sys.getsizeof` of one CPython dict, abstracted: a fixed footprint for
the empty dict plus a per-entry cost. The exact constants are
interpreter-internal; the algorithm only relies on the empty footprint
being positive and the measure growing with the number of entries. -/
def dictFootprint (entries : Nat) : Nat := 272 + 8 * entries

/-- `current_cache_size`:
`getsizeof(cache_values) + getsizeof(cache_timeouts)`. -/
def current_cache_size (s : CacheState) : Nat :=
  dictFootprint s.values.length + dictFootprint s.timeouts.length

/-- The inner `while` of `manage_memory` (TTL draining), with explicit
fuel: `none` means the fuel ran out with the loop still running;
`this_step` starts at `step_seconds` and grows by `step_seconds` each
pass, and — as in the source — is passed to `_clear_ttl_keys` as a plain
integer. Returns the final state and `this_step` on normal exit. -/
def drainTtlLoop (step_seconds : Int) (limit : Nat) :
    Nat → Int → CacheState → Option (Except PyError (CacheState × Int))
  | 0, _, _ => none
  | fuel + 1, this_step, s =>
      if current_cache_size s > limit then
        match clear_ttl_keys (.int this_step) s with
        | .error e => some (.error e)
        | .ok s' => drainTtlLoop step_seconds limit fuel
            (this_step + step_seconds) s'
      else some (.ok (s, this_step))

/-- The outer `while` of `manage_memory`, with explicit fuel:
`old_cache_size` is the size recorded once on entry, against which each
perm-clearing pass is compared. -/
def manageLoop (chunk_size : Nat) (step_seconds : Int) (limit : Nat)
    (old_cache_size : Nat) :
    Nat → Int → CacheState → Option (Except PyError CacheState)
  | 0, _, _ => none
  | fuel + 1, this_step, s =>
      if current_cache_size s > limit then
        let s' := clear_perm_keys chunk_size s
        if current_cache_size s' = old_cache_size then
          match drainTtlLoop step_seconds limit (fuel + 1) this_step s' with
          | none => none
          | some (.error e) => some (.error e)
          | some (.ok (s'', step'')) =>
              manageLoop chunk_size step_seconds limit old_cache_size fuel
                step'' s''
        else
          manageLoop chunk_size step_seconds limit old_cache_size fuel
            this_step s'
      else some (.ok s)

/-- `manage_memory(chunk_size, step_seconds, limit)` with explicit fuel:
records the entry size as `old_cache_size`, initializes
`this_step = step_seconds`, then runs the eviction loop. `none` means the
fuel ran out with the loop still running, `some (.error e)` that a Python
exception escaped, `some (.ok s)` normal termination. -/
def manage_memory (fuel : Nat) (chunk_size : Nat) (step_seconds : Int)
    (limit : Nat) (s : CacheState) : Option (Except PyError CacheState) :=
  manageLoop chunk_size step_seconds limit (current_cache_size s) fuel
    step_seconds s

/-! ## Derived notions used in the specifications -/

/-- Invariant I1 of the spec: the value store and the timeout store hold
exactly the same keys. -/
def KeysEq (s : CacheState) : Prop :=
  ∀ k, (alookup k s.values).isSome = (alookup k s.timeouts).isSome

/-- The keys whose snapshot ttl entry expires strictly before `h` — the
set `_clear_ttl_keys` pops when handed a genuine datetime. -/
def expiredKeys (h : Int) (timeouts : List (String × Timeout)) :
    List String :=
  (ttlEntries timeouts).filterMap
    (fun p => if p.2 < h then some p.1 else none)

/-- The state a datetime-horizon draining pass leaves behind: both stores
with every key whose snapshot ttl entry expires before `h` removed
(`clear_ttl_keys_dt` proves this is what `_clear_ttl_keys` produces). -/
def clearTtlResult (h : Int) (s : CacheState) : CacheState :=
  removeKeys (expiredKeys h s.timeouts) s

/-- The permanent-eviction scenario of `test_clear_perm_keys`
(`now = 0`): k1 created 100s ago, k2 200s ago, k3 10s ago. -/
def permScenario : CacheState :=
  ⟨[("k1", .perm (-100)), ("k2", .perm (-200)), ("k3", .perm (-10))],
   [("k1", "some test data"), ("k2", "some test data"),
    ("k3", "some test data")]⟩

/-- The TTL-draining scenario of `test_clear_ttl_keys` (`now = 0`):
k1 expires at +360s, k2 at +640s, k3 at +720s. -/
def ttlScenario : CacheState :=
  ⟨[("k1", .ttl 360), ("k2", .ttl 640), ("k3", .ttl 720)],
   [("k1", "some test data"), ("k2", "some test data"),
    ("k3", "some test data")]⟩

/-! ## Lemmas about the association-list primitives -/

theorem alookup_aremove (k k' : String) (l : List (String × α)) :
    alookup k' (aremove k l) = if k' = k then none else alookup k' l := by
  induction l with
  | nil => simp [aremove, alookup]
  | cons p l ih =>
      by_cases hk : k' = k
      · subst hk
        by_cases hp : p.1 = k'
        · simp [aremove, hp, ih]
        · simp [aremove, alookup, hp, ih]
      · have hkk : ¬ k = k' := fun h => hk h.symm
        by_cases hp : p.1 = k
        · have hpk : ¬ p.1 = k' := fun h => hk (h.symm.trans hp)
          simp [aremove, alookup, hp, hk, hpk, hkk, ih]
        · by_cases hpk : p.1 = k'
          · simp [aremove, alookup, hp, hpk, hk]
          · simp [aremove, alookup, hp, hpk, hk, ih]

theorem alookup_aset (k k' : String) (v : α) (l : List (String × α)) :
    alookup k' (aset k v l) = if k' = k then some v else alookup k' l := by
  induction l with
  | nil =>
      by_cases hk : k' = k
      · subst hk; simp [aset, alookup]
      · have hkk : ¬ k = k' := fun h => hk h.symm
        simp [aset, alookup, hk, hkk]
  | cons p l ih =>
      by_cases hk : k' = k
      · subst hk
        by_cases hp : p.1 = k'
        · simp [aset, alookup, hp]
        · simp [aset, alookup, hp, ih]
      · have hkk : ¬ k = k' := fun h => hk h.symm
        by_cases hp : p.1 = k
        · have hpk : ¬ p.1 = k' := fun h => hk (h.symm.trans hp)
          simp [aset, alookup, hp, hk, hpk, hkk]
        · by_cases hpk : p.1 = k'
          · simp [aset, alookup, hp, hpk, hk]
          · simp [aset, alookup, hp, hpk, hk, hkk, ih]

theorem aremove_aremove_self (k : String) (l : List (String × α)) :
    aremove k (aremove k l) = aremove k l := by
  induction l with
  | nil => simp [aremove]
  | cons p l ih =>
      by_cases hp : p.1 = k
      · simp [aremove, hp, ih]
      · simp [aremove, hp, ih]

theorem mem_of_alookup_eq_some {l : List (String × α)} {k : String}
    {v : α} (h : alookup k l = some v) : (k, v) ∈ l := by
  induction l with
  | nil => simp [alookup] at h
  | cons p l ih =>
      by_cases hp : p.1 = k
      · obtain ⟨p1, p2⟩ := p
        simp only [alookup, if_pos hp] at h
        cases h
        cases hp
        exact List.mem_cons_self _ _
      · simp only [alookup, if_neg hp] at h
        exact List.mem_cons_of_mem _ (ih h)

theorem alookup_eq_some_of_mem {l : List (String × α)}
    (hnd : (l.map Prod.fst).Nodup) {k : String} {v : α}
    (h : (k, v) ∈ l) : alookup k l = some v := by
  induction l with
  | nil => simp at h
  | cons p l ih =>
      simp only [List.map_cons, List.nodup_cons] at hnd
      rcases List.mem_cons.mp h with h1 | h1
      · subst h1
        simp [alookup]
      · have hp : ¬ p.1 = k := by
          intro hpk
          exact hnd.1 (hpk ▸ (List.mem_map.mpr ⟨(k, v), h1, rfl⟩))
        simp only [alookup, if_neg hp]
        exact ih hnd.2 h1

theorem alookup_isSome_of_mem {l : List (String × α)} {k : String}
    {v : α} (h : (k, v) ∈ l) : (alookup k l).isSome := by
  induction l with
  | nil => simp at h
  | cons p l ih =>
      by_cases hp : p.1 = k
      · simp [alookup, hp]
      · rcases List.mem_cons.mp h with h1 | h1
        · exact absurd (congrArg Prod.fst h1).symm hp
        · simp only [alookup, if_neg hp]
          exact ih h1

theorem mem_permEntries {l : List (String × Timeout)} {k : String}
    {t : Int} : (k, t) ∈ permEntries l ↔ (k, Timeout.perm t) ∈ l := by
  induction l with
  | nil => simp [permEntries]
  | cons p l ih =>
      obtain ⟨k', t'⟩ := p
      cases t' with
      | ttl e => simp [permEntries, ih]
      | perm t' => simp [permEntries, ih]

theorem mem_ttlEntries {l : List (String × Timeout)} {k : String}
    {e : Int} : (k, e) ∈ ttlEntries l ↔ (k, Timeout.ttl e) ∈ l := by
  induction l with
  | nil => simp [ttlEntries]
  | cons p l ih =>
      obtain ⟨k', t'⟩ := p
      cases t' with
      | perm t => simp [ttlEntries, ih]
      | ttl e' => simp [ttlEntries, ih]

theorem removeKeys_timeouts (ks : List String) (s : CacheState)
    (k : String) :
    alookup k (removeKeys ks s).timeouts =
      if k ∈ ks then none else alookup k s.timeouts := by
  induction ks generalizing s with
  | nil => simp [removeKeys]
  | cons k0 ks ih =>
      simp only [removeKeys, ih, alookup_aremove, List.mem_cons]
      by_cases h0 : k = k0
      · simp [h0]
      · by_cases h1 : k ∈ ks
        · simp [h0, h1]
        · simp [h0, h1]

theorem removeKeys_values (ks : List String) (s : CacheState)
    (k : String) :
    alookup k (removeKeys ks s).values =
      if k ∈ ks then none else alookup k s.values := by
  induction ks generalizing s with
  | nil => simp [removeKeys]
  | cons k0 ks ih =>
      simp only [removeKeys, ih, alookup_aremove, List.mem_cons]
      by_cases h0 : k = k0
      · simp [h0]
      · by_cases h1 : k ∈ ks
        · simp [h0, h1]
        · simp [h0, h1]

theorem clearTtlLoop_dt (h : Int) (ks : List (String × Int))
    (s : CacheState) :
    clearTtlLoop (.dt h) ks s =
      .ok (removeKeys
        (ks.filterMap (fun p => if p.2 < h then some p.1 else none)) s) := by
  induction ks generalizing s with
  | nil => simp [clearTtlLoop, removeKeys]
  | cons p ks ih =>
      obtain ⟨k, e⟩ := p
      by_cases he : e < h
      · simp [clearTtlLoop, dtLtArg, he, ih, removeKeys]
      · simp [clearTtlLoop, dtLtArg, he, ih]

theorem clear_ttl_keys_dt (h : Int) (s : CacheState) :
    clear_ttl_keys (.dt h) s =
      .ok (removeKeys (expiredKeys h s.timeouts) s) := by
  simp [clear_ttl_keys, expiredKeys, clearTtlLoop_dt]

theorem KeysEq_removeKeys {s : CacheState} (h : KeysEq s)
    (ks : List String) : KeysEq (removeKeys ks s) := by
  intro k
  rw [removeKeys_timeouts, removeKeys_values]
  by_cases hk : k ∈ ks
  · simp [hk]
  · simp [hk, h k]

theorem KeysEq_aremove {s : CacheState} (h : KeysEq s) (k0 : String) :
    KeysEq ⟨aremove k0 s.timeouts, aremove k0 s.values⟩ := by
  intro k
  simp only [alookup_aremove]
  by_cases hk : k = k0
  · simp [hk]
  · simp [hk, h k]

theorem KeysEq_clearTtlLoop {fut : PyTimeArg} {ks : List (String × Int)}
    {s s' : CacheState} (h : KeysEq s)
    (hok : clearTtlLoop fut ks s = .ok s') : KeysEq s' := by
  induction ks generalizing s with
  | nil =>
      simp only [clearTtlLoop] at hok
      cases hok
      exact h
  | cons p ks ih =>
      obtain ⟨k, e⟩ := p
      simp only [clearTtlLoop] at hok
      cases hfut : dtLtArg e fut with
      | error err => rw [hfut] at hok; cases hok
      | ok b =>
          rw [hfut] at hok
          by_cases hb : b = true
          · subst hb
            simp only [if_true] at hok
            exact ih (KeysEq_aremove h k) hok
          · simp only [Bool.not_eq_true] at hb
            subst hb
            simp only [Bool.false_eq_true, if_false] at hok
            exact ih h hok

theorem clear_perm_keys_empty (chunk : Nat) :
    clear_perm_keys chunk emptyCache = emptyCache := by
  simp [clear_perm_keys, permEntries, sortByTime, removeKeys, emptyCache]

theorem drainTtlLoop_empty (step : Int) (limit : Nat)
    (h : limit < current_cache_size emptyCache) :
    ∀ fuel this_step,
      drainTtlLoop step limit fuel this_step emptyCache = none := by
  intro fuel
  induction fuel with
  | zero => intro _; rfl
  | succ fuel ih =>
      intro this_step
      have hgt : current_cache_size emptyCache > limit := h
      simp only [drainTtlLoop, if_pos hgt]
      have hclear :
          clear_ttl_keys (.int this_step) emptyCache = .ok emptyCache := rfl
      rw [hclear]
      exact ih (this_step + step)

theorem manageLoop_empty (chunk : Nat) (step : Int) (limit : Nat)
    (h : limit < current_cache_size emptyCache) :
    ∀ fuel this_step,
      manageLoop chunk step limit (current_cache_size emptyCache) fuel
        this_step emptyCache = none := by
  intro fuel
  induction fuel with
  | zero => intro _; rfl
  | succ fuel ih =>
      intro this_step
      have hgt : current_cache_size emptyCache > limit := h
      simp only [manageLoop, if_pos hgt, clear_perm_keys_empty, if_pos rfl]
      rw [drainTtlLoop_empty step limit h (fuel + 1) this_step]
      simp

theorem clear_perm_keys_eq (chunk : Nat) (s : CacheState) :
    clear_perm_keys chunk s =
      removeKeys
        (((sortByTime (permEntries s.timeouts)).take chunk).map Prod.fst)
        s := rfl

theorem mem_expiredKeys {h : Int} {l : List (String × Timeout)}
    {k : String} :
    k ∈ expiredKeys h l ↔ ∃ e, (k, Timeout.ttl e) ∈ l ∧ e < h := by
  simp only [expiredKeys, List.mem_filterMap]
  constructor
  · rintro ⟨⟨k0, e⟩, hmem, hif⟩
    by_cases he : e < h
    · simp only [if_pos he] at hif
      cases hif
      exact ⟨e, mem_ttlEntries.mp hmem, he⟩
    · simp only [if_neg he] at hif
      exact Option.noConfusion hif
  · rintro ⟨e, hmem, he⟩
    exact ⟨(k, e), mem_ttlEntries.mpr hmem, by simp [he]⟩

theorem parse_command_get_ok (now : Int) (cmd : String) (s : CacheState)
    (h1 : pyLower ((pyTokens cmd).getD 0 "") = "get")
    (h2 : (pyTokens cmd).length = 2) :
    parse_command now cmd s =
      .ok (get_or_timeout now ((pyTokens cmd).getD 1 "") s) := by
  simp only [parse_command, h1, h2]
  simp

theorem parse_command_get_wrong (now : Int) (cmd : String)
    (s : CacheState)
    (h1 : pyLower ((pyTokens cmd).getD 0 "") = "get")
    (h2 : (pyTokens cmd).length ≠ 2) :
    parse_command now cmd s =
      .error (.wrongArgCount "GET" (pyTokens cmd).length) := by
  simp only [parse_command, h1, if_neg h2]
  simp

theorem parse_command_set_wrong (now : Int) (cmd : String)
    (s : CacheState)
    (h1 : pyLower ((pyTokens cmd).getD 0 "") = "set")
    (h2 : ¬ 2 < (pyTokens cmd).length) :
    parse_command now cmd s =
      .error (.wrongArgCount "SET" (pyTokens cmd).length) := by
  simp only [parse_command, h1, if_neg h2]
  simp

theorem parse_command_unknown (now : Int) (cmd : String) (s : CacheState)
    (h1 : pyLower ((pyTokens cmd).getD 0 "") ≠ "get")
    (h2 : pyLower ((pyTokens cmd).getD 0 "") ≠ "set") :
    parse_command now cmd s = .error .unknownCommand := by
  simp only [parse_command, if_neg h1, if_neg h2]

theorem parse_command_set_long (now : Int) (cmd : String) (s : CacheState)
    (h1 : pyLower ((pyTokens cmd).getD 0 "") = "set")
    (h2 : 2 < (pyTokens cmd).length) :
    parse_command now cmd s = .error .indexError ∨
    ∃ r s', parse_command now cmd s = .ok (r, s') := by
  simp only [parse_command, h1, if_pos h2]
  simp only [show (("set" : String) = "get") = False from by simp, if_false]
  simp only [show (("set" : String) = "set") = True from by simp, if_true]
  split
  · exact Or.inl rfl
  · exact Or.inr ⟨_, _, rfl⟩

theorem message_ne_markers (e : PyError) :
    e.message ≠ "SUCCESS" ∧ e.message ≠ "NOT FOUND" := by
  cases e with
  | wrongArgCount v n =>
      have hlen : 32 ≤ (PyError.message (.wrongArgCount v n)).length := by
        simp only [PyError.message, String.length_append]
        have h32 :
            ("ERROR: Wrong number of args for " : String).length = 32 := by
          decide
        omega
      constructor <;> intro h <;> rw [h] at hlen <;>
        exact absurd hlen (by decide)
  | unknownCommand => exact ⟨by decide, by decide⟩
  | indexError => exact ⟨by decide, by decide⟩
  | typeError => exact ⟨by decide, by decide⟩

/-! ## The claims -/

/-- C9: `put` (`_set_key`) always replaces any existing entry for the key:
afterwards the value store maps the key to the new value, the timeout
store maps it to `TimeToLive (now + ttl)` when a ttl is present and to
`Permanent now` otherwise, and every other key's entries in both stores
are unchanged. -/
theorem set_key_spec (now : Int) (key value : String) (ttl : Option Int)
    (s : CacheState) :
    alookup key (set_key now key value ttl s).values = some value ∧
    alookup key (set_key now key value ttl s).timeouts =
      some (match ttl with
            | some t => Timeout.ttl (now + t)
            | none => Timeout.perm now) ∧
    ∀ k', k' ≠ key →
      alookup k' (set_key now key value ttl s).values =
        alookup k' s.values ∧
      alookup k' (set_key now key value ttl s).timeouts =
        alookup k' s.timeouts := by
  refine ⟨?_, ?_, ?_⟩
  · cases ttl <;> simp [set_key, alookup_aset]
  · cases ttl <;> simp [set_key, alookup_aset]
  · intro k' hk'
    cases ttl <;> simp [set_key, alookup_aset, hk']

theorem set_key_spec_witness :
    alookup "k2" (set_key 0 "k1" "v" none
      ⟨[("k2", .perm 5)], [("k2", "w")]⟩).values = some "w" :=
  (((set_key_spec 0 "k1" "v" none
      ⟨[("k2", .perm 5)], [("k2", "w")]⟩).2.2 "k2" (by decide)).1).trans
    (by decide)

/-- C3: for a key holding a `TimeToLive` entry with a stored value, `get`
(`_get_or_timeout`) returns the stored value when `expires_at > now` and
leaves the state unchanged; when `expires_at <= now` the first `get`
returns `NOT FOUND` and removes the key from both stores, and a second
`get` also returns `NOT FOUND` without changing anything further. -/
theorem get_ttl_semantics (now : Int) (key : String) (e : Int)
    (v : String) (s : CacheState)
    (ht : alookup key s.timeouts = some (.ttl e))
    (hv : alookup key s.values = some v) :
    (now < e → get_or_timeout now key s = (v, s)) ∧
    (e ≤ now →
      (get_or_timeout now key s).1 = "NOT FOUND" ∧
      alookup key (get_or_timeout now key s).2.timeouts = none ∧
      alookup key (get_or_timeout now key s).2.values = none ∧
      get_or_timeout now key (get_or_timeout now key s).2 =
        ("NOT FOUND", (get_or_timeout now key s).2)) := by
  constructor
  · intro h
    simp [get_or_timeout, ht, hv, h]
  · intro h
    have hng : ¬ (e > now) := not_lt.mpr h
    refine ⟨?_, ?_, ?_, ?_⟩
    · simp [get_or_timeout, ht, hng]
    · simp [get_or_timeout, ht, hng, alookup_aremove]
    · simp [get_or_timeout, ht, hng, alookup_aremove]
    · simp [get_or_timeout, ht, hng, alookup_aremove,
        aremove_aremove_self]

theorem get_ttl_semantics_witness :
    get_or_timeout 0 "k1" ⟨[("k1", .ttl 10)], [("k1", "v")]⟩ =
      ("v", ⟨[("k1", .ttl 10)], [("k1", "v")]⟩) :=
  (get_ttl_semantics 0 "k1" 10 "v" ⟨[("k1", .ttl 10)], [("k1", "v")]⟩
    (by decide) (by decide)).1 (by decide)

/-- C8: Invariant I1 — the value store and the timeout store holding the
same key set — is preserved by every cache operation: a get, a put, a
permanent-eviction pass, and a TTL-draining pass. -/
theorem invariant_I1_preserved (s : CacheState) (h : KeysEq s) :
    (∀ now key, KeysEq (get_or_timeout now key s).2) ∧
    (∀ now key value ttl, KeysEq (set_key now key value ttl s)) ∧
    (∀ chunk, KeysEq (clear_perm_keys chunk s)) ∧
    (∀ fut s', clear_ttl_keys fut s = .ok s' → KeysEq s') := by
  refine ⟨?_, ?_, ?_, ?_⟩
  · intro now key
    have hcases : (get_or_timeout now key s).2 = s ∨
        (get_or_timeout now key s).2 =
          ⟨aremove key s.timeouts, aremove key s.values⟩ := by
      cases hx : alookup key s.timeouts with
      | none => right; simp [get_or_timeout, hx]
      | some t =>
          cases t with
          | ttl e =>
              by_cases he : e > now
              · cases hv : alookup key s.values with
                | none => right; simp [get_or_timeout, hx, he, hv]
                | some v => left; simp [get_or_timeout, hx, he, hv]
              · right; simp [get_or_timeout, hx, he]
          | perm t =>
              cases hv : alookup key s.values with
              | none => right; simp [get_or_timeout, hx, hv]
              | some v => left; simp [get_or_timeout, hx, hv]
    cases hcases with
    | inl hc => rw [hc]; exact h
    | inr hc => rw [hc]; exact KeysEq_aremove h key
  · intro now key value ttl k
    cases ttl with
    | none =>
        simp only [set_key, alookup_aset]
        by_cases hk : k = key
        · simp [hk]
        · simp [hk, h k]
    | some t =>
        simp only [set_key, alookup_aset]
        by_cases hk : k = key
        · simp [hk]
        · simp [hk, h k]
  · intro chunk
    exact KeysEq_removeKeys h _
  · intro fut s' hok
    exact KeysEq_clearTtlLoop h hok

theorem invariant_I1_preserved_witness :
    KeysEq (set_key 0 "k1" "v" none emptyCache) :=
  (invariant_I1_preserved emptyCache (fun _ => rfl)).2.1 0 "k1" "v" none

/-- C10: the eviction loop of `manage_memory` has no iteration cap:
whenever the byte limit is below the footprint of the empty pair of
stores, the loop never finishes — for every fuel bound the fuelled
embedding is still running (`none`). -/
theorem manage_memory_no_cap (fuel chunk : Nat) (step : Int)
    (limit : Nat) (h : limit < current_cache_size emptyCache) :
    manage_memory fuel chunk step limit emptyCache = none := by
  unfold manage_memory
  exact manageLoop_empty chunk step limit h fuel step

theorem manage_memory_no_cap_witness :
    0 < current_cache_size emptyCache ∧
      manage_memory 5 1 300 0 emptyCache = none :=
  ⟨by decide, manage_memory_no_cap 5 1 300 0 (by decide)⟩

/-- C1 (code bug): `manage_memory` hands `_clear_ttl_keys` the plain
integer `this_step` where a datetime horizon (`now + step_seconds`) is
documented and expected, so as soon as TTL draining inspects a
`TimeToLive` entry, the `expires_at < horizon` comparison is a
datetime-to-int comparison and raises `TypeError` — which, not being a
`ValueError`, also escapes `run_ncache`'s handler — instead of draining
entries up to the widening horizon. Evaluated on the scenario state with
three TTL entries and a limit of 0. -/
theorem manage_memory_int_horizon_type_error :
    clear_ttl_keys (.int 300) ttlScenario = .error .typeError ∧
    manage_memory 4 1 300 0 ttlScenario = some (.error .typeError) ∧
    PyError.isValueError .typeError = false :=
  ⟨rfl, rfl, rfl⟩

/-- C5: one permanent-eviction pass (`_clear_perm_keys`) selects exactly
the entries whose descriptor is `Permanent`, sorts them ascending by
`created_at`, removes the first `chunk_size` of them from both stores,
and leaves every `TimeToLive` entry and every unselected `Permanent`
entry untouched; on the scenario with k1 created 100s ago, k2 200s ago
and k3 10s ago, successive chunk-size-1 passes remove k2, then k1, then
k3. -/
theorem clear_perm_keys_spec :
    (∀ (chunk : Nat) (s : CacheState),
      (s.timeouts.map Prod.fst).Nodup →
      (sortByTime (permEntries s.timeouts)).Sorted byTime ∧
      (sortByTime (permEntries s.timeouts)).Perm
        (permEntries s.timeouts) ∧
      (∀ k,
        k ∈ ((sortByTime (permEntries s.timeouts)).take chunk).map
            Prod.fst →
        (∃ t, alookup k s.timeouts = some (.perm t)) ∧
        alookup k (clear_perm_keys chunk s).timeouts = none ∧
        alookup k (clear_perm_keys chunk s).values = none) ∧
      (∀ k,
        k ∉ ((sortByTime (permEntries s.timeouts)).take chunk).map
            Prod.fst →
        alookup k (clear_perm_keys chunk s).timeouts =
          alookup k s.timeouts ∧
        alookup k (clear_perm_keys chunk s).values =
          alookup k s.values) ∧
      (∀ k e, alookup k s.timeouts = some (.ttl e) →
        k ∉ ((sortByTime (permEntries s.timeouts)).take chunk).map
            Prod.fst)) ∧
    clear_perm_keys 1 permScenario =
      ⟨[("k1", .perm (-100)), ("k3", .perm (-10))],
       [("k1", "some test data"), ("k3", "some test data")]⟩ ∧
    clear_perm_keys 1 (clear_perm_keys 1 permScenario) =
      ⟨[("k3", .perm (-10))], [("k3", "some test data")]⟩ ∧
    clear_perm_keys 1 (clear_perm_keys 1 (clear_perm_keys 1
      permScenario)) = emptyCache := by
  refine ⟨?_, by decide, by decide, by decide⟩
  intro chunk s hnd
  have hperm : ∀ k,
      k ∈ ((sortByTime (permEntries s.timeouts)).take chunk).map
        Prod.fst →
      ∃ t, alookup k s.timeouts = some (.perm t) := by
    intro k hk
    obtain ⟨⟨k0, t⟩, hp, hk0⟩ := List.mem_map.mp hk
    cases hk0
    refine ⟨t, ?_⟩
    have h1 : (k0, t) ∈ sortByTime (permEntries s.timeouts) :=
      List.take_subset _ _ hp
    have h2 : (k0, t) ∈ permEntries s.timeouts :=
      (List.perm_insertionSort byTime _).subset h1
    exact alookup_eq_some_of_mem hnd (mem_permEntries.mp h2)
  refine ⟨List.sorted_insertionSort byTime _,
    List.perm_insertionSort byTime _, ?_, ?_, ?_⟩
  · intro k hk
    refine ⟨hperm k hk, ?_, ?_⟩
    · rw [clear_perm_keys_eq, removeKeys_timeouts, if_pos hk]
    · rw [clear_perm_keys_eq, removeKeys_values, if_pos hk]
  · intro k hk
    constructor
    · rw [clear_perm_keys_eq, removeKeys_timeouts, if_neg hk]
    · rw [clear_perm_keys_eq, removeKeys_values, if_neg hk]
  · intro k e hl hk
    obtain ⟨t, ht⟩ := hperm k hk
    rw [hl] at ht
    cases ht

theorem clear_perm_keys_spec_witness :
    alookup "k2" (clear_perm_keys 1 permScenario).timeouts = none :=
  ((clear_perm_keys_spec.1 1 permScenario (by decide)).2.2.1 "k2"
    (by decide)).2.1

/-- C6: TTL draining with a genuine datetime horizon
(`_clear_ttl_keys(future)`) removes from both stores exactly the
`TimeToLive` entries whose `expires_at` is strictly earlier than the
horizon and keeps everything else; on the scenario with k1 at +360s, k2
at +640s and k3 at +720s, the horizon at now+300 removes nothing, at
now+600 removes k1, and at now+900 removes k2 and k3. -/
theorem clear_ttl_keys_spec :
    (∀ (h : Int) (s : CacheState),
      (s.timeouts.map Prod.fst).Nodup →
      clear_ttl_keys (.dt h) s = .ok (clearTtlResult h s) ∧
      (∀ k e, alookup k s.timeouts = some (.ttl e) → e < h →
        alookup k (clearTtlResult h s).timeouts = none ∧
        alookup k (clearTtlResult h s).values = none) ∧
      (∀ k e, alookup k s.timeouts = some (.ttl e) → ¬ e < h →
        alookup k (clearTtlResult h s).timeouts = some (.ttl e) ∧
        alookup k (clearTtlResult h s).values = alookup k s.values) ∧
      (∀ k t, alookup k s.timeouts = some (.perm t) →
        alookup k (clearTtlResult h s).timeouts = some (.perm t) ∧
        alookup k (clearTtlResult h s).values = alookup k s.values) ∧
      (∀ k, alookup k s.timeouts = none →
        alookup k (clearTtlResult h s).timeouts = none ∧
        alookup k (clearTtlResult h s).values = alookup k s.values)) ∧
    clear_ttl_keys (.dt 300) ttlScenario = .ok ttlScenario ∧
    clear_ttl_keys (.dt 600) ttlScenario =
      .ok ⟨[("k2", .ttl 640), ("k3", .ttl 720)],
           [("k2", "some test data"), ("k3", "some test data")]⟩ ∧
    clear_ttl_keys (.dt 900)
      ⟨[("k2", .ttl 640), ("k3", .ttl 720)],
       [("k2", "some test data"), ("k3", "some test data")]⟩ =
      .ok emptyCache := by
  refine ⟨?_, rfl, rfl, rfl⟩
  intro h s hnd
  refine ⟨clear_ttl_keys_dt h s, ?_, ?_, ?_, ?_⟩
  · intro k e hl he
    have hk : k ∈ expiredKeys h s.timeouts :=
      mem_expiredKeys.mpr ⟨e, mem_of_alookup_eq_some hl, he⟩
    constructor
    · rw [clearTtlResult, removeKeys_timeouts, if_pos hk]
    · rw [clearTtlResult, removeKeys_values, if_pos hk]
  · intro k e hl he
    have hk : k ∉ expiredKeys h s.timeouts := by
      intro hk
      obtain ⟨e', hmem, he'⟩ := mem_expiredKeys.mp hk
      have h2 := alookup_eq_some_of_mem hnd hmem
      rw [hl] at h2
      simp only [Option.some.injEq, Timeout.ttl.injEq] at h2
      subst h2
      exact he he'
    constructor
    · rw [clearTtlResult, removeKeys_timeouts, if_neg hk, hl]
    · rw [clearTtlResult, removeKeys_values, if_neg hk]
  · intro k t hl
    have hk : k ∉ expiredKeys h s.timeouts := by
      intro hk
      obtain ⟨e', hmem, _⟩ := mem_expiredKeys.mp hk
      have h2 := alookup_eq_some_of_mem hnd hmem
      rw [hl] at h2
      simp at h2
    constructor
    · rw [clearTtlResult, removeKeys_timeouts, if_neg hk, hl]
    · rw [clearTtlResult, removeKeys_values, if_neg hk]
  · intro k hl
    have hk : k ∉ expiredKeys h s.timeouts := by
      intro hk
      obtain ⟨e', hmem, _⟩ := mem_expiredKeys.mp hk
      have h2 := alookup_isSome_of_mem hmem
      rw [hl] at h2
      simp at h2
    constructor
    · rw [clearTtlResult, removeKeys_timeouts, if_neg hk, hl]
    · rw [clearTtlResult, removeKeys_values, if_neg hk]

theorem clear_ttl_keys_spec_witness :
    clear_ttl_keys (.dt 600) ttlScenario =
      .ok (clearTtlResult 600 ttlScenario) :=
  (clear_ttl_keys_spec.1 600 ttlScenario (by decide)).1

/-- C2: a command whose tokens are exactly `SET <key> TTL=<digits>` — a
well-formed trailing TTL suffix and no value tokens — makes
`parse_command` rejoin zero middle tokens into an empty raw value and
read its first character: the embedding takes the out-of-bounds
(`IndexError`) branch, so the call neither succeeds nor raises the
`WrongArgCount`/`UnknownCommand` ValueErrors, and the error is not one
`run_ncache`'s `except ValueError` handler catches. -/
theorem parse_command_set_ttl_only_index_error (now : Int)
    (s : CacheState) (cmd w key t : String)
    (htoks : pyTokens cmd = [w, key, t])
    (hw : pyLower w = "set")
    (hts : pyStartsWith (pyLower t) "ttl=" = true)
    (htd : pyIsDigit ((pyLower t).drop 4) = true) :
    parse_command now cmd s = .error .indexError ∧
    PyError.isValueError .indexError = false := by
  refine ⟨?_, rfl⟩
  simp [parse_command, htoks, hw, hts, htd, joinSpaces]

theorem parse_command_set_ttl_only_index_error_witness :
    parse_command 0 "SET key TTL=5" emptyCache = .error .indexError ∧
    PyError.isValueError .indexError = false :=
  parse_command_set_ttl_only_index_error 0 emptyCache "SET key TTL=5"
    "SET" "key" "TTL=5" (by decide) rfl rfl rfl

/-- C4: `parse_command` fails with `WrongArgCount` exactly when the
case-folded verb is `get` with a token count other than 2, or `set` with
at most 2 tokens; it fails with `UnknownCommand` exactly when the first
token is neither; and the message of any raised error is never the
`SUCCESS` or `NOT FOUND` markers. -/
theorem parse_command_error_taxonomy (now : Int) (cmd : String)
    (s : CacheState) :
    ((∃ v n, parse_command now cmd s = .error (.wrongArgCount v n)) ↔
      ((pyLower ((pyTokens cmd).getD 0 "") = "get" ∧
          (pyTokens cmd).length ≠ 2) ∨
        (pyLower ((pyTokens cmd).getD 0 "") = "set" ∧
          (pyTokens cmd).length ≤ 2))) ∧
    ((parse_command now cmd s = .error .unknownCommand) ↔
      (pyLower ((pyTokens cmd).getD 0 "") ≠ "get" ∧
        pyLower ((pyTokens cmd).getD 0 "") ≠ "set")) ∧
    (∀ e, parse_command now cmd s = .error e →
      e.message ≠ "SUCCESS" ∧ e.message ≠ "NOT FOUND") := by
  refine ⟨?_, ?_, fun e _ => message_ne_markers e⟩
  · by_cases hg : pyLower ((pyTokens cmd).getD 0 "") = "get"
    · by_cases h2 : (pyTokens cmd).length = 2
      · have hres := parse_command_get_ok now cmd s hg h2
        constructor
        · rintro ⟨v, n, hx⟩
          rw [hres] at hx
          exact Except.noConfusion hx
        · rintro (⟨_, hne⟩ | ⟨hs2, _⟩)
          · exact absurd h2 hne
          · exact absurd (hg.symm.trans hs2) (by decide)
      · have hres := parse_command_get_wrong now cmd s hg h2
        constructor
        · intro _
          exact Or.inl ⟨hg, h2⟩
        · intro _
          exact ⟨"GET", (pyTokens cmd).length, hres⟩
    · by_cases hs : pyLower ((pyTokens cmd).getD 0 "") = "set"
      · by_cases h2 : 2 < (pyTokens cmd).length
        · rcases parse_command_set_long now cmd s hs h2 with hres |
            ⟨r, s', hres⟩
          · constructor
            · rintro ⟨v, n, hx⟩
              rw [hres] at hx
              simp at hx
            · rintro (⟨hg2, _⟩ | ⟨_, hle⟩)
              · exact absurd hg2 hg
              · exact absurd hle (not_le.mpr h2)
          · constructor
            · rintro ⟨v, n, hx⟩
              rw [hres] at hx
              exact Except.noConfusion hx
            · rintro (⟨hg2, _⟩ | ⟨_, hle⟩)
              · exact absurd hg2 hg
              · exact absurd hle (not_le.mpr h2)
        · have hres := parse_command_set_wrong now cmd s hs h2
          constructor
          · intro _
            exact Or.inr ⟨hs, not_lt.mp h2⟩
          · intro _
            exact ⟨"SET", (pyTokens cmd).length, hres⟩
      · have hres := parse_command_unknown now cmd s hg hs
        constructor
        · rintro ⟨v, n, hx⟩
          rw [hres] at hx
          simp at hx
        · rintro (⟨hg2, _⟩ | ⟨hs2, _⟩)
          · exact absurd hg2 hg
          · exact absurd hs2 hs
  · by_cases hg : pyLower ((pyTokens cmd).getD 0 "") = "get"
    · by_cases h2 : (pyTokens cmd).length = 2
      · have hres := parse_command_get_ok now cmd s hg h2
        rw [hres]
        constructor
        · intro hx
          exact Except.noConfusion hx
        · rintro ⟨hne, _⟩
          exact absurd hg hne
      · have hres := parse_command_get_wrong now cmd s hg h2
        rw [hres]
        constructor
        · intro hx
          simp at hx
        · rintro ⟨hne, _⟩
          exact absurd hg hne
    · by_cases hs : pyLower ((pyTokens cmd).getD 0 "") = "set"
      · by_cases h2 : 2 < (pyTokens cmd).length
        · rcases parse_command_set_long now cmd s hs h2 with hres |
            ⟨r, s', hres⟩
          · rw [hres]
            constructor
            · intro hx
              simp at hx
            · rintro ⟨_, hns⟩
              exact absurd hs hns
          · rw [hres]
            constructor
            · intro hx
              exact Except.noConfusion hx
            · rintro ⟨_, hns⟩
              exact absurd hs hns
        · have hres := parse_command_set_wrong now cmd s hs h2
          rw [hres]
          constructor
          · intro hx
            simp at hx
          · rintro ⟨_, hns⟩
            exact absurd hs hns
      · have hres := parse_command_unknown now cmd s hg hs
        rw [hres]
        exact ⟨fun _ => ⟨hg, hs⟩, fun _ => rfl⟩

theorem parse_command_error_taxonomy_witness :
    parse_command 0 "DEL x" emptyCache = .error .unknownCommand :=
  ((parse_command_error_taxonomy 0 "DEL x" emptyCache).2.1).mpr
    ⟨by decide, by decide⟩

/-- C7: in a SET command a trailing `TTL=<digits>` token is consumed
before the quote check; whenever the rejoined raw value's first and last
characters are both a double-quote, exactly one leading and one trailing
character are stripped, purely positionally; a raw value that is exactly
one double-quote is stripped to the empty value; and
`SET k3 "me " TTL=20` stores the value `me ` with its trailing space
preserved and a 20-second TTL. -/
theorem parse_command_quote_stripping :
    (∀ (now : Int) (s : CacheState) (cmd w key t : String)
      (rest : List String) (c : Char) (cs : List Char),
      pyTokens cmd = w :: key :: rest →
      pyLower w = "set" →
      rest ≠ [] →
      rest.getLast? = some t →
      pyStartsWith (pyLower t) "ttl=" = true →
      pyIsDigit ((pyLower t).drop 4) = true →
      (joinSpaces rest.dropLast).toList = c :: cs →
      c = '"' →
      (c :: cs).getLastD ' ' = '"' →
      parse_command now cmd s =
        .ok ("SUCCESS",
          set_key now key (String.mk ((c :: cs).drop 1).dropLast)
            (some ((pyInt ((pyLower t).drop 4) : Nat) : Int)) s)) ∧
    parse_command 0 "SET k \"" emptyCache =
      .ok ("SUCCESS", ⟨[("k", .perm 0)], [("k", "")]⟩) ∧
    parse_command 0 "SET k3 \"me \" TTL=20" emptyCache =
      .ok ("SUCCESS", ⟨[("k3", .ttl 20)], [("k3", "me ")]⟩) := by
  refine ⟨?_, rfl, rfl⟩
  intro now s cmd w key t rest c cs htoks hw hne hlast hts htd hrv hc
    hlastc
  subst hc
  obtain ⟨r0, rs, rfl⟩ := List.exists_cons_of_ne_nil hne
  simp [parse_command, htoks, hw, hlast, hts, htd, hrv, hlastc]
  rw [show (joinSpaces (r0 :: rs).dropLast).data = ('"' :: cs) from hrv]
  have hl2 : ('"' :: cs).getLast?.getD ' ' = '"' := by
    simpa [List.getLastD_eq_getLast?] using hlastc
  simp [hl2]

theorem parse_command_quote_stripping_witness :
    parse_command 0 "SET k3 \"me \" TTL=20" emptyCache =
      .ok ("SUCCESS",
        set_key 0 "k3"
          (String.mk ((('"' :: ['m', 'e', ' ', '"']).drop 1).dropLast))
          (some ((pyInt ((pyLower "TTL=20").drop 4) : Nat) : Int))
          emptyCache) :=
  parse_command_quote_stripping.1 0 emptyCache "SET k3 \"me \" TTL=20"
    "SET" "k3" "TTL=20" ["\"me", "\"", "TTL=20"] '"' ['m', 'e', ' ', '"']
    (by decide) rfl (by decide) rfl rfl rfl (by decide) rfl rfl

end NCache
